import Mathlib

/-!
A shallow embedding of the XSD pseudo-schema compiler in src/parser.py
(repository attack-knowledge-bases-mindmaps), together with theorems that
settle the frozen claims about that module.

Conventions of the embedding:
- XML element-tree nodes become the inductive type XNode (tag, attributes,
  children).  Tags carry the namespace marker exactly as ElementTree does;
  the XSD namespace braces are written with escape codes.
- Python dicts used for the three schema-index buckets become association
  lists where insertion prepends, so that lookup (first match) returns the
  most recently inserted entry, matching Python dict assignment semantics.
- The mutual recursion between the type-resolution methods goes through the
  schema index, so it is made total with an explicit fuel parameter; fuel
  exhaustion degrades to the scalar string expression, which is only
  reachable on cyclic type graphs (where the Python code does not
  terminate either, as the spec itself notes).
- Python string lowering is modelled on ASCII, which is exact for every
  string the compiler manipulates after snake-casing (the normalizer only
  ever emits ASCII alphanumerics and underscores).
-/

/-- Is c an ASCII alphanumeric character, the class 0-9A-Za-z of the first
regular expression in the normalizer. -/
def isAlnumAscii (c : Char) : Bool :=
  (48 ≤ c.toNat && c.toNat ≤ 57) ||
  (65 ≤ c.toNat && c.toNat ≤ 90) ||
  (97 ≤ c.toNat && c.toNat ≤ 122)

/-- Is c an ASCII lowercase letter or digit, the class a-z0-9 of the
camel-boundary regular expression in the normalizer. -/
def isLowerDigitAscii (c : Char) : Bool :=
  (48 ≤ c.toNat && c.toNat ≤ 57) || (97 ≤ c.toNat && c.toNat ≤ 122)

/-- Is c an ASCII uppercase letter, the class A-Z of the camel-boundary
regular expression in the normalizer. -/
def isUpperAscii (c : Char) : Bool :=
  65 ≤ c.toNat && c.toNat ≤ 90

/-- ASCII lowercasing of one character, the effect of str.lower on the
ASCII-only strings the normalizer produces. -/
def toLowerAscii (c : Char) : Char :=
  if isUpperAscii c then Char.ofNat (c.toNat + 32) else c

/-- First regular-expression pass of the normalizer: every maximal run of
characters outside 0-9A-Za-z is replaced by a single underscore.  The flag
records whether the previous character was part of such a run. -/
def collapseNonAlnum : Bool → List Char → List Char
  | _, [] => []
  | prevU, c :: rest =>
    if isAlnumAscii c then c :: collapseNonAlnum false rest
    else if prevU then collapseNonAlnum true rest
    else '_' :: collapseNonAlnum true rest

/-- Second regular-expression pass of the normalizer: an underscore is
inserted at every boundary between a lowercase-or-digit character and an
uppercase character. -/
def insertCamel : List Char → List Char
  | [] => []
  | [c] => [c]
  | c1 :: c2 :: rest =>
    if isLowerDigitAscii c1 && isUpperAscii c2 then
      c1 :: '_' :: insertCamel (c2 :: rest)
    else
      c1 :: insertCamel (c2 :: rest)

/-- Removal of a maximal trailing run of underscores, half of the
str.strip underscore call of the normalizer. -/
def dropTrailU : List Char → List Char
  | [] => []
  | c :: rest =>
    match dropTrailU rest with
    | [] => if c = '_' then [] else [c]
    | d :: r => c :: d :: r

/-- str.strip applied to underscores: leading then trailing underscores
are removed. -/
def stripU (cs : List Char) : List Char :=
  dropTrailU (cs.dropWhile (fun c => c == '_'))

/-- The whole normalizer pipeline on character lists: collapse non
alphanumeric runs, split camel boundaries, strip underscores, lowercase. -/
def normChars (cs : List Char) : List Char :=
  (stripU (insertCamel (collapseNonAlnum false cs))).map toLowerAscii

/-- The identifier normalizer snake_case of parser.py. -/
def _snake_case (s : String) : String :=
  String.mk (normChars s.data)

/-! ## XML document model -/

/-- An ElementTree node: tag with namespace marker, attribute list,
children in document order.  Attribute lookup returns the first binding,
matching the dictionary that the XML parser produces (attribute names are
unique in well-formed XML). -/
inductive XNode where
  | mk (tag : String) (attrs : List (String × String)) (children : List XNode)

def XNode.tag : XNode → String
  | .mk t _ _ => t

def XNode.attrs : XNode → List (String × String)
  | .mk _ a _ => a

def XNode.children : XNode → List XNode
  | .mk _ _ c => c

/-- node.get(key), returning None when the attribute is absent. -/
def XNode.attr (n : XNode) (key : String) : Option String :=
  ((n.attrs.find? (fun p => p.1 == key)).map (fun p => p.2))

/-- node.get(key, default). -/
def XNode.attrD (n : XNode) (key dflt : String) : String :=
  (n.attr key).getD dflt

/-- node.find(tag): first direct child with the given tag. -/
def XNode.find (n : XNode) (t : String) : Option XNode :=
  n.children.find? (fun c => c.tag == t)

/-- node.findall(tag): all direct children with the given tag, in
document order. -/
def XNode.findall (n : XNode) (t : String) : List XNode :=
  n.children.filter (fun c => c.tag == t)

/-- The XSD namespace marker that ElementTree prepends to tags, the
constant XSD_NS of parser.py. -/
def XSD_NS : String := "\x7bhttp://www.w3.org/2001/XMLSchema\x7d"

/-- Abbreviation for a namespaced XSD tag. -/
def xsd (t : String) : String := XSD_NS ++ t

/-- Everything after the first occurrence of the separator character, or
none when it does not occur: the semantics of str.split(sep, 1) index 1
for a one-character separator. -/
def afterFirstChar (sep : Char) : List Char → Option (List Char)
  | [] => none
  | c :: rest => if c = sep then some rest else afterFirstChar sep rest

/-- The closing-brace character that ends a namespace marker. -/
def braceClose : Char := Char.ofNat 125

/-- The helper strip_ns of parser.py: drop a namespace marker ending in a
closing brace, else a prefix ending in a colon. -/
def _strip_ns (tag_or_type : String) : String :=
  if tag_or_type = "" then ""
  else
    match afterFirstChar braceClose tag_or_type.data with
    | some r => String.mk r
    | none =>
      match afterFirstChar ':' tag_or_type.data with
      | some r => String.mk r
      | none => tag_or_type

/-! ## Type-expression data model -/

/-- The tagged union Expr of parser.py: a field list is an ordered list of
name and expression pairs (the Field dataclass). -/
inductive Expr where
  | scalar : String → Expr
  | object : List (String × Expr) → Expr
  | list : Expr → Expr
  | optional : Expr → Expr

/-! ## Schema index -/

/-- Python dict assignment d[k] = v modelled on an association list whose
lookup returns the first (that is, most recent) binding. -/
def dinsert (d : List (String × XNode)) (k : String) (v : XNode) :
    List (String × XNode) :=
  (k, v) :: d

/-- Python membership and subscript lookup on the modelled dict. -/
def dlookup (d : List (String × XNode)) (k : String) : Option XNode :=
  ((d.find? (fun p => p.1 == k)).map (fun p => p.2))

/-- The three index buckets built by index_schema. -/
structure SchemaIndex where
  simple_types : List (String × XNode)
  complex_types : List (String × XNode)
  global_elements : List (String × XNode)

/-- One step of the index pass over a top-level schema child: children
without a name (or with an empty name, which Python treats as falsy) are
skipped, the rest are bucketed by their namespace-stripped tag. -/
def indexStep (acc : SchemaIndex) (child : XNode) : SchemaIndex :=
  match child.attr "name" with
  | none => acc
  | some name =>
    if name = "" then acc
    else
      let l := _strip_ns child.tag
      if l = "simpleType" then
        { acc with simple_types := dinsert acc.simple_types name child }
      else if l = "complexType" then
        { acc with complex_types := dinsert acc.complex_types name child }
      else if l = "element" then
        { acc with global_elements := dinsert acc.global_elements name child }
      else acc

/-- index_schema of parser.py: one pass over the direct children of the
schema root. -/
def _index_schema (root : XNode) : SchemaIndex :=
  root.children.foldl indexStep ⟨[], [], []⟩

/-- The compiler state: schema path, parsed root, index buckets, ignore
set (a set of normalized names, modelled as a list with membership
semantics). -/
structure Compiler where
  schema_path : String
  simple_types : List (String × XNode)
  complex_types : List (String × XNode)
  global_elements : List (String × XNode)
  ignored_keys : List String

/-- The constructor of XSDSchemaCompiler: index the document once. -/
def mkCompiler (schema_path : String) (root : XNode)
    (ignored_keys : List String) : Compiler :=
  let idx := _index_schema root
  ⟨schema_path, idx.simple_types, idx.complex_types, idx.global_elements,
    ignored_keys⟩

/-! ## Scalar mapping and simple types -/

/-- The static builtin scalar table of builtin_scalar, with its default of
string for unmapped names. -/
def builtinTable : List (String × String) :=
  [("string", "string"), ("token", "string"), ("normalizedString", "string"),
   ("integer", "int"), ("int", "int"), ("long", "int"), ("short", "int"),
   ("nonNegativeInteger", "int"), ("positiveInteger", "int"),
   ("boolean", "bool"), ("date", "date"), ("gYear", "string"),
   ("gMonth", "string"), ("gDay", "string"), ("anyURI", "string"),
   ("decimal", "float"), ("double", "float"), ("float", "float")]

/-- builtin_scalar of parser.py. -/
def _builtin_scalar (xsd_type : String) : String :=
  let t := _strip_ns xsd_type
  ((builtinTable.find? (fun p => p.1 == t)).map (fun p => p.2)).getD "string"

/-- The keyword list of expr_for_type_name that short-circuits to the
builtin scalar mapping. -/
def builtinNames : List String :=
  ["string", "integer", "int", "long", "short", "nonNegativeInteger",
   "positiveInteger", "boolean", "date", "gYear", "gMonth", "gDay",
   "anyURI", "decimal", "double", "float", "token", "normalizedString"]

/-- enum_values_from_simple_type of parser.py: the value attributes of the
enumeration facets under the first restriction child, in document order;
facets without a value attribute are skipped. -/
def _enum_values_from_simple_type (node : XNode) : List String :=
  match node.find (xsd "restriction") with
  | none => []
  | some restriction =>
    (restriction.findall (xsd "enumeration")).filterMap
      (fun e => e.attr "value")

/-- The rendered enum literal with double-quoted values, as built inside
expr_for_simple_type. -/
def enumLiteral (values : List String) : String :=
  "enum(" ++ String.intercalate ", " (values.map (fun v => "\"" ++ v ++ "\"")) ++ ")"

/-- expr_for_simple_type of parser.py.  A restriction whose base attribute
is absent or empty (falsy in Python) degrades to the scalar string. -/
def _expr_for_simple_type (node : XNode) : Expr :=
  let enums := _enum_values_from_simple_type node
  if enums ≠ [] then Expr.scalar (enumLiteral enums)
  else
    match node.find (xsd "restriction") with
    | some restriction =>
      match restriction.attr "base" with
      | some b => if b = "" then Expr.scalar "string"
                  else Expr.scalar (_builtin_scalar b)
      | none => Expr.scalar "string"
    | none => Expr.scalar "string"

/-- ASCII model of str.lower on whole strings. -/
def lowerStr (s : String) : String :=
  String.mk (s.data.map toLowerAscii)

/-- Does the second list start with the first one. -/
def startsWithL : List Char → List Char → Bool
  | [], _ => true
  | _ :: _, [] => false
  | a :: as, b :: bs => a = b && startsWithL as bs

/-- Does the pattern occur as a contiguous run inside the text. -/
def hasSubL (pat : List Char) : List Char → Bool
  | [] => pat.isEmpty
  | c :: rest => startsWithL pat (c :: rest) || hasSubL pat rest

/-- Python substring membership sub in s, modelled on character lists. -/
def containsSub (sub s : String) : Bool :=
  hasSubL sub.data s.data

/-- base_value_name of parser.py: the heuristic that names the single
base-value field of an extension whose base resolves to a scalar. -/
def _base_value_name (base_scalar : String) (context_name : String) : String :=
  let ctx := lowerStr context_name
  if containsSub "name" ctx ∧ base_scalar = "string" then "name"
  else if ctx = "skill" then "value"
  else if base_scalar = "structured_text" then
    (if ctx = "technique" then "text" else "content")
  else "value"

/-- The alias table of compile_root. -/
def aliases : List (String × String) :=
  [("attack_pattern", "AttackPatternType"), ("weakness", "WeaknessType"),
   ("attack_pattern_catalog", "Attack_Pattern_Catalog"),
   ("weakness_catalog", "Weakness_Catalog")]

/-- The alias resolution step at the top of compile_root. -/
def aliasResolve (root_identifier : String) : String :=
  ((aliases.find? (fun p => p.1 == root_identifier)).map (fun p => p.2)).getD
    root_identifier

/-- filter_fields of parser.py: drop fields whose name is in the ignore
set, preserving order. -/
def _filter_fields (C : Compiler) (fields : List (String × Expr)) :
    List (String × Expr) :=
  fields.filter (fun f => !(C.ignored_keys.contains f.1))

/-- element_occurs_wrapped of parser.py: wrap in a list when the raw
maxOccurs string differs from "1", then in an optional when the raw
minOccurs string equals "0". -/
def _element_occurs_wrapped (expr : Expr) (node : XNode) : Expr :=
  let min_occurs := node.attrD "minOccurs" "1"
  let max_occurs := node.attrD "maxOccurs" "1"
  let e1 := if max_occurs ≠ "1" then Expr.list expr else expr
  if min_occurs = "0" then Expr.optional e1 else e1

/-- Kernel-friendly model of str.startswith. -/
def strStartsWith (s pre : String) : Bool := startsWithL pre.data s.data

/-! ## The mutually recursive type resolver

The Python methods recurse through the schema index, so the Lean model
carries a fuel parameter that every mutual call decrements; fuel
exhaustion degrades to the scalar string expression. -/

mutual

/-- expr_for_type_name of parser.py. -/
def _expr_for_type_name (C : Compiler) : Nat → String → String → Expr
  | 0, _, _ => Expr.scalar "string"
  | fuel + 1, type_name, context_name =>
    let l := _strip_ns type_name
    if strStartsWith type_name "xs:" ∨ builtinNames.contains l then
      Expr.scalar (_builtin_scalar type_name)
    else if l = "StructuredTextType" then Expr.scalar "structured_text"
    else
      match dlookup C.simple_types l with
      | some st => _expr_for_simple_type st
      | none =>
        match dlookup C.complex_types l with
        | some ct => _expr_for_complex_type C fuel ct context_name
        | none => Expr.scalar "string"

/-- The expression computed for an attribute inside attribute_to_field,
before the optionality wrapping: type reference first (when the type
attribute is present and non-empty), else an inline simple type, else the
scalar string. -/
def _attr_resolved_expr (C : Compiler) : Nat → XNode → Expr
  | 0, _ => Expr.scalar "string"
  | fuel + 1, attr =>
    let name := _snake_case (attr.attrD "name" "attribute")
    let attr_type := attr.attrD "type" ""
    if attr_type ≠ "" then _expr_for_type_name C fuel attr_type name
    else
      match attr.find (xsd "simpleType") with
      | some inline_simple => _expr_for_simple_type inline_simple
      | none => Expr.scalar "string"

/-- attribute_to_field of parser.py: resolve the attribute expression and
wrap it in an optional unless use equals "required". -/
def _attribute_to_field (C : Compiler) : Nat → XNode → String × Expr
  | 0, attr => (_snake_case (attr.attrD "name" "attribute"), Expr.scalar "string")
  | fuel + 1, attr =>
    let name := _snake_case (attr.attrD "name" "attribute")
    let expr := _attr_resolved_expr C fuel attr
    let required := attr.attr "use" = some "required"
    (name, if required then expr else Expr.optional expr)

/-- expr_for_element_content of parser.py. -/
def _expr_for_element_content (C : Compiler) : Nat → XNode → Expr
  | 0, _ => Expr.scalar "string"
  | fuel + 1, node =>
    let element_name := _snake_case (node.attrD "name" "item")
    let element_type := node.attrD "type" ""
    if element_type ≠ "" then
      _expr_for_type_name C fuel element_type element_name
    else
      match node.find (xsd "simpleType") with
      | some inline_simple => _expr_for_simple_type inline_simple
      | none =>
        match node.find (xsd "complexType") with
        | some inline_complex =>
          _expr_for_complex_type C fuel inline_complex element_name
        | none => Expr.scalar "string"

/-- element_to_field of parser.py. -/
def _element_to_field (C : Compiler) : Nat → XNode → String × Expr
  | 0, node => (_snake_case (node.attrD "name" "item"), Expr.scalar "string")
  | fuel + 1, node =>
    (_snake_case (node.attrD "name" "item"),
      _element_occurs_wrapped (_expr_for_element_content C fuel node) node)

/-- expr_for_complex_type of parser.py. -/
def _expr_for_complex_type (C : Compiler) : Nat → XNode → String → Expr
  | 0, _, _ => Expr.scalar "string"
  | fuel + 1, node, context_name =>
    match (node.find (xsd "complexContent")).bind
        (fun cc => cc.find (xsd "extension")) with
    | some extension =>
      let base := extension.attrD "base" "xs:string"
      let base_expr := _expr_for_type_name C fuel base context_name
      let base_field :=
        match base_expr with
        | Expr.scalar v => (_base_value_name v context_name, base_expr)
        | _ => ("value", base_expr)
      let fields := base_field ::
        (extension.findall (xsd "attribute")).map (_attribute_to_field C fuel)
      Expr.object (_filter_fields C fields)
    | none =>
      match (node.find (xsd "simpleContent")).bind
          (fun sc => sc.find (xsd "extension")) with
      | some extension =>
        let base := extension.attrD "base" "xs:string"
        let base_expr := _expr_for_type_name C fuel base context_name
        let base_field :=
          match base_expr with
          | Expr.scalar v => (_base_value_name v context_name, base_expr)
          | _ => ("value", base_expr)
        let fields := base_field ::
          (extension.findall (xsd "attribute")).map (_attribute_to_field C fuel)
        Expr.object (_filter_fields C fields)
      | none =>
        let elements :=
          match node.find (xsd "sequence") with
          | some sequence => sequence.findall (xsd "element")
          | none => []
        let special : Option Expr :=
          match elements, node.findall (xsd "attribute") with
          | [child], [] =>
            if child.attrD "minOccurs" "1" = "1" ∧
                child.attrD "maxOccurs" "1" ≠ "1" then
              some (Expr.list (_expr_for_element_content C fuel child))
            else none
          | _, _ => none
        match special with
        | some e => e
        | none =>
          let fields :=
            elements.map (_element_to_field C fuel) ++
            (node.findall (xsd "attribute")).map (_attribute_to_field C fuel)
          Expr.object (_filter_fields C fields)

end

/-! ## Root resolution -/

/-- compile_root of parser.py: alias-resolve the logical root identifier,
look it up first among global elements and then among complex types, and
fail (the raised ValueError, modelled as an error value carrying the root
identifier and the schema path that the message names) when neither lookup
succeeds. -/
def compile_root (C : Compiler) (fuel : Nat) (root_identifier : String) :
    Except (String × String) (String × Expr) :=
  let lookup := aliasResolve root_identifier
  match dlookup C.global_elements lookup with
  | some root_element =>
    Except.ok (_snake_case root_identifier,
      _expr_for_element_content C fuel root_element)
  | none =>
    match dlookup C.complex_types lookup with
    | some ct =>
      Except.ok (_snake_case root_identifier,
        _expr_for_complex_type C fuel ct lookup)
    | none => Except.error (root_identifier, C.schema_path)

/-! ## Renderer -/

/-- Two spaces per indentation level. -/
def padStr : Nat → String
  | 0 => ""
  | n + 1 => "  " ++ padStr n

/-- Is the expression an object, the kind test of render_field. -/
def Expr.isObj : Expr → Bool
  | Expr.object _ => true
  | _ => false

/-- The payload of a scalar expression, the kind test of the wrapper
branches of render_expr. -/
def Expr.scalarVal? : Expr → Option String
  | Expr.scalar v => some v
  | _ => none

mutual

/-- render_expr of parser.py: one output line per list entry. -/
def renderExpr : Expr → Nat → List String
  | Expr.scalar v, indent => [padStr indent ++ v]
  | Expr.object fields, indent =>
    let lines := renderFieldList fields indent
    if lines = [] then [padStr indent ++ "\x7b\x7d"] else lines
  | Expr.list inner, indent =>
    (match inner.scalarVal? with
     | some v => [padStr indent ++ "list<" ++ v ++ ">"]
     | none =>
       (padStr indent ++ "list<") :: renderExpr inner (indent + 1) ++
         [padStr indent ++ ">"])
  | Expr.optional inner, indent =>
    (match inner.scalarVal? with
     | some v => [padStr indent ++ "optional<" ++ v ++ ">"]
     | none =>
       (padStr indent ++ "optional<") :: renderExpr inner (indent + 1) ++
         [padStr indent ++ ">"])
termination_by e _ => sizeOf e

/-- The loop over an object's fields inside render_expr. -/
def renderFieldList : List (String × Expr) → Nat → List String
  | [], _ => []
  | f :: rest, indent => renderField f indent ++ renderFieldList rest indent
termination_by fs _ => sizeOf fs

/-- render_field of parser.py. -/
def renderField : String × Expr → Nat → List String
  | (nm, e), indent =>
    if e.isObj then
      (padStr indent ++ nm ++ ":") :: renderExpr e (indent + 1)
    else
      match renderExpr e indent with
      | [] => [padStr indent ++ nm ++ ": string"]
      | first :: restLines =>
        (padStr indent ++ nm ++ ": " ++
          String.mk (first.data.drop (padStr indent).length)) :: restLines
termination_by f _ => sizeOf f

end

/-- render of parser.py: the document is the joined lines plus exactly one
trailing newline. -/
def render (root_name : String) (expr : Expr) : String :=
  match expr with
  | Expr.object _ =>
    String.intercalate "\n" ((root_name ++ ":") :: renderExpr expr 1) ++ "\n"
  | _ =>
    match renderExpr expr 0 with
    | [] => root_name ++ ": string" ++ "\n"
    | first :: restLines =>
      String.intercalate "\n" ((root_name ++ ": " ++ first) :: restLines) ++ "\n"

/-! ## End-to-end compilation -/

/-- The compile-then-render pipeline of the parse entry point, for an
already parsed schema document: index the schema, resolve the root and
render.  The only failure is the NotFound case of compile_root. -/
def compileSchema (schema_path : String) (root : XNode)
    (ignored_keys : List String) (fuel : Nat) (root_identifier : String) :
    Except (String × String) String :=
  let C := mkCompiler schema_path root ignored_keys
  match compile_root C fuel root_identifier with
  | Except.ok (root_name, expr) => Except.ok (render root_name expr)
  | Except.error e => Except.error e

/-! ## Auxiliary definitions used by the claim theorems -/

/-- Is the expression an optional at the top. -/
def Expr.isOpt : Expr → Bool
  | Expr.optional _ => true
  | _ => false

/-- Is the expression a list at the top. -/
def Expr.isListE : Expr → Bool
  | Expr.list _ => true
  | _ => false

/-- Does a top-level schema child enter the index bucket of the given tag
kind under the given name: it must carry that non-empty name attribute and
its namespace-stripped tag must equal the kind. -/
def matchDecl (kind name : String) (c : XNode) : Prop :=
  _strip_ns c.tag = kind ∧ c.attr "name" = some name ∧ name ≠ ""

instance (kind name : String) (c : XNode) : Decidable (matchDecl kind name c) := by
  unfold matchDecl
  infer_instance

/-- Modelled from the spec (amended for claim C6): the last child in
document order that the index records for a given kind and name. -/
def lastMatch (kind name : String) : List XNode → Option XNode
  | [] => none
  | c :: rest =>
    match lastMatch kind name rest with
    | some r => some r
    | none => if matchDecl kind name c then some c else none

/-- An empty compiler used by concrete witnesses. -/
def C0 : Compiler := ⟨"schema.xsd", [], [], [], []⟩

/-- A concrete element declaration with minOccurs zero and maxOccurs
unbounded, used by witnesses. -/
def elemOptList : XNode :=
  .mk (xsd "element")
    [("name", "Note"), ("type", "xs:string"), ("minOccurs", "0"),
     ("maxOccurs", "unbounded")] []

/-- The restriction child of the concrete enumeration simple type below. -/
def enumRestriction : XNode :=
  .mk (xsd "restriction") [("base", "xs:string")]
    [.mk (xsd "enumeration") [("value", "High")] [],
     .mk (xsd "enumeration") [("value", "Medium")] [],
     .mk (xsd "enumeration") [("value", "Low")] []]

/-- A concrete simple type with three enumeration facets, used by
witnesses. -/
def enumNode : XNode :=
  .mk (xsd "simpleType") [("name", "SeverityType")] [enumRestriction]

/-- The repeated mandatory element inside the wrapper type below. -/
def wrapperChild : XNode :=
  .mk (xsd "element")
    [("name", "Example_Instance"), ("type", "xs:string"),
     ("maxOccurs", "unbounded")] []

/-- The sequence child of the wrapper type below. -/
def wrapperSeq : XNode := .mk (xsd "sequence") [] [wrapperChild]

/-- A concrete wrapper complex type whose sole sequence child is a
repeated mandatory element, used by witnesses for the collapse case. -/
def wrapperNode : XNode :=
  .mk (xsd "complexType") [("name", "WrapperType")] [wrapperSeq]

/-- The extension node of the structured-text complex type below. -/
def structuredExtension : XNode :=
  .mk (xsd "extension") [("base", "StructuredTextType")] []

/-- A concrete complex type with a simple-content extension of the known
structured-text type, to be resolved in a context whose name contains the
word name: the counterexample input for claim C5. -/
def structuredInNameContext : XNode :=
  .mk (xsd "complexType") [("name", "XNameType")]
    [.mk (xsd "simpleContent") [] [structuredExtension]]

/-- The extension node that complex-type resolution selects: the one under
complexContent when present, else the one under simpleContent. -/
def selectedExtension (node : XNode) : Option XNode :=
  match (node.find (xsd "complexContent")).bind
      (fun cc => cc.find (xsd "extension")) with
  | some e => some e
  | none =>
    (node.find (xsd "simpleContent")).bind (fun sc => sc.find (xsd "extension"))

/-- First of two top-level complex types that share the name A. -/
def dupFirst : XNode := .mk (xsd "complexType") [("name", "A"), ("marker", "first")] []

/-- Second of two top-level complex types that share the name A. -/
def dupSecond : XNode := .mk (xsd "complexType") [("name", "A"), ("marker", "second")] []

/-- A schema document whose top-level children declare the name A twice. -/
def dupSchema : XNode := .mk (xsd "schema") [] [dupFirst, dupSecond]

/-- Adjacent characters are not both underscores. -/
def RnoU (a b : Char) : Prop := ¬(a = '_' ∧ b = '_')

/-- No two adjacent underscores anywhere in the list. -/
def NoDU (cs : List Char) : Prop := List.Chain' RnoU cs

/-- A concrete required attribute declaration. -/
def requiredAttr : XNode :=
  .mk (xsd "attribute")
    [("name", "ID"), ("type", "xs:integer"), ("use", "required")] []

/-! ## Theorems -/

example : _snake_case "Example_Instance" = "example_instance" := by decide
example : _snake_case "camelCaseID" = "camel_case_id" := by decide
example : _snake_case "--Weird  name--" = "weird_name" := by decide
example : _snake_case "" = "" := by decide

theorem toNat_ofNat_lt (n : Nat) (h : n < 55296) : (Char.ofNat n).toNat = n := by
  have hv : n.isValidChar := Or.inl h
  simp only [Char.ofNat, hv, dif_pos, Char.ofNatAux, Char.toNat]
  simp [UInt32.toNat]

theorem toNat_toLowerAscii (c : Char) :
    (toLowerAscii c).toNat = if isUpperAscii c then c.toNat + 32 else c.toNat := by
  unfold toLowerAscii
  split
  case isTrue h =>
    have h2 := h
    unfold isUpperAscii at h2
    simp only [Bool.and_eq_true, decide_eq_true_eq] at h2
    rw [toNat_ofNat_lt _ (by omega)]
  case isFalse h => simp [h]

example : _strip_ns (xsd "element") = "element" := by decide
example : _strip_ns "xs:string" = "string" := by decide
example : _strip_ns "WeaknessType" = "WeaknessType" := by decide

example : _builtin_scalar "xs:positiveInteger" = "int" := by decide
example : _builtin_scalar "xs:anything" = "string" := by decide

example : containsSub "name" "x_name" = true := by decide
example : containsSub "name" "technique" = false := by decide

example : _base_value_name "string" "Skill" = "value" := by decide
example : _base_value_name "structured_text" "technique" = "text" := by decide
example : _base_value_name "structured_text" "x_name" = "content" := by decide


/-- Claim C1: for every element declaration whose effective minOccurs is 0
and whose effective maxOccurs differs from 1 (which covers every value
greater than one and unbounded), element resolution wraps the content
expression as Optional around List, never the reverse. -/
theorem C1_optional_outside_list (C : Compiler) (fuel : Nat) (node : XNode)
    (hmin : node.attrD "minOccurs" "1" = "0")
    (hmax : node.attrD "maxOccurs" "1" ≠ "1") :
    (_element_to_field C (fuel + 1) node).2 =
      Expr.optional (Expr.list (_expr_for_element_content C fuel node)) ∧
    ((_element_to_field C (fuel + 1) node).2).isListE = false := by
  have h : _element_occurs_wrapped (_expr_for_element_content C fuel node) node =
      Expr.optional (Expr.list (_expr_for_element_content C fuel node)) := by
    unfold _element_occurs_wrapped
    simp [hmin, hmax]
  constructor
  · show _element_occurs_wrapped _ node = _
    exact h
  · show (_element_occurs_wrapped _ node).isListE = false
    rw [h]
    rfl

/-- Witness for C1 at a concrete element declaration. -/
theorem C1_witness :
    (_element_to_field C0 1 elemOptList).2 =
      Expr.optional (Expr.list (_expr_for_element_content C0 0 elemOptList)) ∧
    ((_element_to_field C0 1 elemOptList).2).isListE = false :=
  C1_optional_outside_list C0 0 elemOptList rfl (by decide)

/-- Claim C10: occurrence attributes are compared as raw strings against
the literal 1, and minOccurs against the literal 0: the wrapping outcome
is exactly this four-way case split on the raw attribute strings. -/
theorem C10_raw_string_occurrence (expr : Expr) (node : XNode) :
    _element_occurs_wrapped expr node =
      (if node.attrD "minOccurs" "1" = "0" then
        (if node.attrD "maxOccurs" "1" = "1" then Expr.optional expr
         else Expr.optional (Expr.list expr))
       else
        (if node.attrD "maxOccurs" "1" = "1" then expr
         else Expr.list expr)) := by
  unfold _element_occurs_wrapped
  by_cases h1 : node.attrD "minOccurs" "1" = "0" <;>
    by_cases h2 : node.attrD "maxOccurs" "1" = "1" <;>
      simp [h1, h2]

/-- A scalar expression is not an optional. -/
theorem scalar_not_opt (e : Expr) (h : e.scalarVal?.isSome = true) :
    e.isOpt = false := by
  cases e <;> simp [Expr.scalarVal?, Expr.isOpt] at h ⊢

/-- Every simple-type resolution is a scalar expression. -/
theorem expr_for_simple_type_scalar (node : XNode) :
    (_expr_for_simple_type node).scalarVal?.isSome = true := by
  unfold _expr_for_simple_type
  dsimp only
  split
  · rfl
  · split
    · split
      · split <;> rfl
      · rfl
    · rfl

/-- Complex-type resolution never returns an optional at the top: every
branch builds an object, a bare list, or a scalar. -/
theorem expr_for_complex_type_not_opt (C : Compiler) (fuel : Nat)
    (node : XNode) (ctx : String) :
    (_expr_for_complex_type C fuel node ctx).isOpt = false := by
  cases fuel with
  | zero => rfl
  | succ fuel =>
    unfold _expr_for_complex_type
    dsimp only
    split
    · rfl
    · split
      · rfl
      · split
        case h_1 e heq =>
          split at heq
          · split at heq
            · cases heq
              rfl
            · cases heq
          · cases heq
        · rfl

/-- Named-type resolution never returns an optional at the top. -/
theorem expr_for_type_name_not_opt (C : Compiler) (fuel : Nat)
    (tn ctx : String) :
    (_expr_for_type_name C fuel tn ctx).isOpt = false := by
  cases fuel with
  | zero => rfl
  | succ fuel =>
    unfold _expr_for_type_name
    dsimp only
    split
    · rfl
    · split
      · rfl
      · split
        case h_1 st heq => exact scalar_not_opt _ (expr_for_simple_type_scalar st)
        · split
          · exact expr_for_complex_type_not_opt C fuel _ ctx
          · rfl

/-- Claim C4: attribute resolution wraps the resolved expression in an
Optional exactly when the use attribute differs from the string required;
and the resolved expression itself is never an optional, so a required
attribute never carries an Optional wrapper at all. -/
theorem C4_attribute_optionality (C : Compiler) (fuel : Nat) (attr : XNode) :
    _attribute_to_field C (fuel + 1) attr =
      (_snake_case (attr.attrD "name" "attribute"),
        if attr.attr "use" = some "required" then _attr_resolved_expr C fuel attr
        else Expr.optional (_attr_resolved_expr C fuel attr)) ∧
    (_attr_resolved_expr C fuel attr).isOpt = false := by
  constructor
  · rfl
  · cases fuel with
    | zero => rfl
    | succ fuel =>
      unfold _attr_resolved_expr
      dsimp only
      split
      · exact expr_for_type_name_not_opt C fuel _ _
      · split
        case h_1 s heq => exact scalar_not_opt _ (expr_for_simple_type_scalar s)
        · rfl

/-- Witness for C4 at a concrete required attribute: no Optional wrapper
is produced. -/
theorem C4_witness :
    _attribute_to_field C0 1 requiredAttr =
      ("id", _attr_resolved_expr C0 0 requiredAttr) ∧
    (_attr_resolved_expr C0 0 requiredAttr).isOpt = false := by
  have h := C4_attribute_optionality C0 0 requiredAttr
  refine ⟨?_, h.2⟩
  rw [h.1]
  rfl

/-- Claim C3: a complex type with no complex or simple content, whose
sequence holds exactly one element declaration, which itself declares no
attributes, where that element has minOccurs 1 and maxOccurs different
from 1 (covering unbounded and every bound above one), collapses to a
bare List of the element content instead of an object. -/
theorem C3_singleton_sequence_collapse (C : Compiler) (fuel : Nat)
    (node seq child : XNode) (ctx : String)
    (hcc : node.find (xsd "complexContent") = none)
    (hsc : node.find (xsd "simpleContent") = none)
    (hseq : node.find (xsd "sequence") = some seq)
    (helems : seq.findall (xsd "element") = [child])
    (hattrs : node.findall (xsd "attribute") = [])
    (hmin : child.attrD "minOccurs" "1" = "1")
    (hmax : child.attrD "maxOccurs" "1" ≠ "1") :
    _expr_for_complex_type C (fuel + 1) node ctx =
      Expr.list (_expr_for_element_content C fuel child) := by
  unfold _expr_for_complex_type
  rw [hcc, hsc]
  dsimp only [Option.bind]
  rw [hseq]
  dsimp only
  rw [helems, hattrs]
  simp [hmin, hmax]

/-- Witness for C3 at the concrete wrapper type. -/
theorem C3_witness :
    _expr_for_complex_type C0 1 wrapperNode "wrapper_type" =
      Expr.list (_expr_for_element_content C0 0 wrapperChild) :=
  C3_singleton_sequence_collapse C0 0 wrapperNode wrapperSeq wrapperChild
    "wrapper_type" rfl rfl rfl rfl rfl rfl (by decide)

/-- Claim C7: a simple type whose restriction carries enumeration facets
resolves to an enum scalar holding exactly the facets' value attributes,
verbatim and in document order, and renders as the double-quoted
comma-separated enum literal. -/
theorem C7_enum_preserved (node r : XNode)
    (hr : node.find (xsd "restriction") = some r)
    (hne : (r.findall (xsd "enumeration")).filterMap (fun e => e.attr "value")
      ≠ []) :
    _expr_for_simple_type node =
      Expr.scalar (enumLiteral
        ((r.findall (xsd "enumeration")).filterMap (fun e => e.attr "value"))) ∧
    renderExpr (_expr_for_simple_type node) 0 =
      [enumLiteral
        ((r.findall (xsd "enumeration")).filterMap (fun e => e.attr "value"))] := by
  have hv : _enum_values_from_simple_type node =
      (r.findall (xsd "enumeration")).filterMap (fun e => e.attr "value") := by
    unfold _enum_values_from_simple_type
    rw [hr]
  have h1 : _expr_for_simple_type node =
      Expr.scalar (enumLiteral
        ((r.findall (xsd "enumeration")).filterMap (fun e => e.attr "value"))) := by
    unfold _expr_for_simple_type
    dsimp only
    rw [hv]
    simp [hne]
  refine ⟨h1, ?_⟩
  rw [h1]
  unfold renderExpr padStr
  simp

/-- Witness for C7: the spec example with values High, Medium, Low renders
in order with original casing. -/
theorem C7_witness :
    _expr_for_simple_type enumNode =
      Expr.scalar (enumLiteral
        ((enumRestriction.findall (xsd "enumeration")).filterMap
          (fun e => e.attr "value"))) ∧
    renderExpr (_expr_for_simple_type enumNode) 0 =
      [enumLiteral
        ((enumRestriction.findall (xsd "enumeration")).filterMap
          (fun e => e.attr "value"))] :=
  C7_enum_preserved enumNode enumRestriction rfl (by decide)

/-- The enum literal of the witness evaluates to the exact rendered text
of the spec example. -/
example : enumLiteral
    ((enumRestriction.findall (xsd "enumeration")).filterMap
      (fun e => e.attr "value")) = "enum(\"High\", \"Medium\", \"Low\")" := by
  decide

/-- Claim C2: compile_root fails with the NotFound error, carrying the
root identifier and the schema path, exactly when the alias-resolved
identifier is found neither among global elements nor among complex
types; global elements are tried first, then complex types; and the whole
pipeline returns rendered text exactly when compile_root succeeds. -/
theorem C2_root_resolution (C : Compiler) (fuel : Nat) (rid : String) :
    (compile_root C fuel rid = Except.error (rid, C.schema_path) ↔
      (dlookup C.global_elements (aliasResolve rid) = none ∧
       dlookup C.complex_types (aliasResolve rid) = none)) ∧
    (∀ g, dlookup C.global_elements (aliasResolve rid) = some g →
      compile_root C fuel rid =
        Except.ok (_snake_case rid, _expr_for_element_content C fuel g)) ∧
    (∀ t, dlookup C.global_elements (aliasResolve rid) = none →
      dlookup C.complex_types (aliasResolve rid) = some t →
      compile_root C fuel rid =
        Except.ok (_snake_case rid,
          _expr_for_complex_type C fuel t (aliasResolve rid))) ∧
    (∀ e, compile_root C fuel rid = Except.error e →
      e = (rid, C.schema_path)) ∧
    (∀ p root ign, compileSchema p root ign fuel rid =
      (compile_root (mkCompiler p root ign) fuel rid).map
        (fun pr => render pr.1 pr.2)) := by
  refine ⟨?_, ?_, ?_, ?_, ?_⟩
  · unfold compile_root
    dsimp only
    constructor
    · intro h
      cases hg : dlookup C.global_elements (aliasResolve rid) with
      | some g => rw [hg] at h; cases h
      | none =>
        cases ht : dlookup C.complex_types (aliasResolve rid) with
        | some t => rw [hg, ht] at h; cases h
        | none => exact ⟨rfl, rfl⟩
    · rintro ⟨hg, ht⟩
      rw [hg, ht]
  · intro g hg
    unfold compile_root
    dsimp only
    rw [hg]
  · intro t hg ht
    unfold compile_root
    dsimp only
    rw [hg, ht]
  · intro e he
    unfold compile_root at he
    dsimp only at he
    cases hg : dlookup C.global_elements (aliasResolve rid) with
    | some g => rw [hg] at he; cases he
    | none =>
      cases ht : dlookup C.complex_types (aliasResolve rid) with
      | some t => rw [hg, ht] at he; cases he
      | none =>
        rw [hg, ht] at he
        cases he
        rfl
  · intro p root ign
    unfold compileSchema
    dsimp only
    cases h : compile_root (mkCompiler p root ign) fuel rid with
    | ok pr => cases pr; rfl
    | error e => rfl

/-- Witness for C2: a missing root fails with the error naming the
identifier and the schema path. -/
theorem C2_witness :
    compile_root C0 5 "missing_root" =
      Except.error ("missing_root", "schema.xsd") :=
  (C2_root_resolution C0 5 "missing_root").1.mpr ⟨rfl, rfl⟩

/-- Claim C9: compilation is deterministic; the embedding of the whole
compile-then-render pipeline is a pure function, so two runs on the same
parsed schema, root identifier and ignore set are definitionally equal. -/
theorem C9_deterministic (schema_path : String) (root : XNode)
    (ignored : List String) (fuel : Nat) (rid : String) :
    compileSchema schema_path root ignored fuel rid =
      compileSchema schema_path root ignored fuel rid := rfl

/-- Counterexample to claim C5 as stated: in the context x_name, which
contains the word name, a simple-content extension whose base resolves to
the structured_text scalar yields the base field name content, not name:
the name rule of the heuristic additionally requires the base scalar to
be the string kind. -/
theorem C5_counterexample :
    containsSub "name" (lowerStr "x_name") = true ∧
    _expr_for_type_name C0 1 "StructuredTextType" "x_name" =
      Expr.scalar "structured_text" ∧
    _expr_for_complex_type C0 2 structuredInNameContext "x_name" =
      Expr.object [("content", Expr.scalar "structured_text")] ∧
    _base_value_name "structured_text" "x_name" = "content" := by
  refine ⟨by decide, rfl, ?_, by decide⟩
  rfl

/-- Claim C5 amended: the heuristic as implemented.  For a selected
extension (complex content first, else simple content) with a scalar base
the single base field carries the heuristic name, and with a non-scalar
base it is named value; the heuristic maps a context containing the word
name to the field name only when the base scalar is the string kind,
a remaining context equal to skill to value, a remaining structured_text
base to text for the context technique and content otherwise, and
everything else to value. -/
theorem C5_base_value_naming (C : Compiler) (fuel : Nat)
    (node extension : XNode) (ctx : String)
    (hext : selectedExtension node = some extension) :
    (∀ v, _expr_for_type_name C fuel (extension.attrD "base" "xs:string") ctx
        = Expr.scalar v →
      _expr_for_complex_type C (fuel + 1) node ctx =
        Expr.object (_filter_fields C
          ((_base_value_name v ctx, Expr.scalar v) ::
            (extension.findall (xsd "attribute")).map
              (_attribute_to_field C fuel)))) ∧
    (∀ e, _expr_for_type_name C fuel (extension.attrD "base" "xs:string") ctx
        = e → e.scalarVal? = none →
      _expr_for_complex_type C (fuel + 1) node ctx =
        Expr.object (_filter_fields C
          (("value", e) ::
            (extension.findall (xsd "attribute")).map
              (_attribute_to_field C fuel)))) ∧
    (∀ v, containsSub "name" (lowerStr ctx) = true → v = "string" →
      _base_value_name v ctx = "name") ∧
    (∀ v, (containsSub "name" (lowerStr ctx) = false ∨ v ≠ "string") →
      lowerStr ctx = "skill" → _base_value_name v ctx = "value") ∧
    (∀ v, (containsSub "name" (lowerStr ctx) = false ∨ v ≠ "string") →
      lowerStr ctx ≠ "skill" → v = "structured_text" →
      _base_value_name v ctx =
        (if lowerStr ctx = "technique" then "text" else "content")) ∧
    (∀ v, (containsSub "name" (lowerStr ctx) = false ∨ v ≠ "string") →
      lowerStr ctx ≠ "skill" → v ≠ "structured_text" →
      _base_value_name v ctx = "value") := by
  have hbranch : ∀ e, _expr_for_type_name C fuel
      (extension.attrD "base" "xs:string") ctx = e →
      _expr_for_complex_type C (fuel + 1) node ctx =
        Expr.object (_filter_fields C
          ((match e with
            | Expr.scalar v => (_base_value_name v ctx, e)
            | _ => ("value", e)) ::
            (extension.findall (xsd "attribute")).map
              (_attribute_to_field C fuel))) := by
    intro e he
    unfold selectedExtension at hext
    unfold _expr_for_complex_type
    dsimp only
    split at hext
    case h_1 e0 heq =>
      cases hext
      rw [he]
    case h_2 heq =>
      rw [hext]
      dsimp only
      rw [he]
  refine ⟨?_, ?_, ?_, ?_, ?_, ?_⟩
  · intro v hv
    exact hbranch (Expr.scalar v) hv
  · intro e he hns
    have h := hbranch e he
    cases e with
    | scalar v => cases hns
    | object fs => exact h
    | list i => exact h
    | optional i => exact h
  · intro v hc hv
    unfold _base_value_name
    dsimp only
    rw [if_pos ⟨hc, hv⟩]
  · intro v hd hskill
    unfold _base_value_name
    dsimp only
    rw [if_neg, if_pos hskill]
    rintro ⟨h1, h2⟩
    cases hd with
    | inl h => rw [h1] at h; cases h
    | inr h => exact h h2
  · intro v hd hskill hv
    unfold _base_value_name
    dsimp only
    rw [if_neg, if_neg hskill, if_pos hv]
    rintro ⟨h1, h2⟩
    cases hd with
    | inl h => rw [h1] at h; cases h
    | inr h => exact h h2
  · intro v hd hskill hv
    unfold _base_value_name
    dsimp only
    rw [if_neg, if_neg hskill, if_neg hv]
    rintro ⟨h1, h2⟩
    cases hd with
    | inl h => rw [h1] at h; cases h
    | inr h => exact h h2

/-- Witness for the amended C5 at the concrete structured-text type in the
x_name context: the base field is named content. -/
theorem C5_witness :
    _expr_for_complex_type C0 2 structuredInNameContext "x_name" =
      Expr.object (_filter_fields C0
        ((_base_value_name "structured_text" "x_name",
          Expr.scalar "structured_text") ::
          (structuredExtension.findall (xsd "attribute")).map
            (_attribute_to_field C0 1))) :=
  (C5_base_value_naming C0 1 structuredInNameContext structuredExtension
    "x_name" rfl).1 "structured_text" rfl

/-- Counterexample to claim C6 as stated: when two top-level complex types
share the name A, the index lookup returns the second child in document
order, not the first: Python dict assignment overwrites, so the last
occurrence wins. -/
theorem C6_counterexample :
    dupSchema.children = [dupFirst, dupSecond] ∧
    (dlookup (_index_schema dupSchema).complex_types "A").map
      (fun n => n.attrD "marker" "") = some "second" ∧
    dupFirst.attrD "marker" "" = "first" ∧
    dupSecond.attrD "marker" "" = "second" :=
  ⟨rfl, rfl, rfl, rfl⟩

/-- One indexing step changes a bucket lookup exactly on the child that
enters that bucket under the looked-up name: simple types. -/
theorem dlookup_indexStep_st (acc : SchemaIndex) (c : XNode) (nm : String) :
    dlookup (indexStep acc c).simple_types nm =
      if matchDecl "simpleType" nm c then some c
      else dlookup acc.simple_types nm := by
  unfold indexStep
  cases hattr : c.attr "name" with
  | none => simp [matchDecl, hattr]
  | some a =>
    by_cases ha : a = "" <;>
      by_cases hk1 : _strip_ns c.tag = "simpleType" <;>
        by_cases hk2 : _strip_ns c.tag = "complexType" <;>
          by_cases hk3 : _strip_ns c.tag = "element" <;>
            by_cases hnm : a = nm <;>
              simp_all [matchDecl, dlookup, dinsert, List.find?]

/-- One indexing step changes a bucket lookup exactly on the child that
enters that bucket under the looked-up name: complex types. -/
theorem dlookup_indexStep_ct (acc : SchemaIndex) (c : XNode) (nm : String) :
    dlookup (indexStep acc c).complex_types nm =
      if matchDecl "complexType" nm c then some c
      else dlookup acc.complex_types nm := by
  unfold indexStep
  cases hattr : c.attr "name" with
  | none => simp [matchDecl, hattr]
  | some a =>
    by_cases ha : a = "" <;>
      by_cases hk1 : _strip_ns c.tag = "simpleType" <;>
        by_cases hk2 : _strip_ns c.tag = "complexType" <;>
          by_cases hk3 : _strip_ns c.tag = "element" <;>
            by_cases hnm : a = nm <;>
              simp_all [matchDecl, dlookup, dinsert, List.find?]

/-- One indexing step changes a bucket lookup exactly on the child that
enters that bucket under the looked-up name: global elements. -/
theorem dlookup_indexStep_ge (acc : SchemaIndex) (c : XNode) (nm : String) :
    dlookup (indexStep acc c).global_elements nm =
      if matchDecl "element" nm c then some c
      else dlookup acc.global_elements nm := by
  unfold indexStep
  cases hattr : c.attr "name" with
  | none => simp [matchDecl, hattr]
  | some a =>
    by_cases ha : a = "" <;>
      by_cases hk1 : _strip_ns c.tag = "simpleType" <;>
        by_cases hk2 : _strip_ns c.tag = "complexType" <;>
          by_cases hk3 : _strip_ns c.tag = "element" <;>
            by_cases hnm : a = nm <;>
              simp_all [matchDecl, dlookup, dinsert, List.find?]

/-- Folding the index over a child list makes lookup return the last
matching child, falling back to the accumulator: simple types. -/
theorem dlookup_foldl_st (cs : List XNode) (acc : SchemaIndex) (nm : String) :
    dlookup (cs.foldl indexStep acc).simple_types nm =
      (match lastMatch "simpleType" nm cs with
       | some r => some r
       | none => dlookup acc.simple_types nm) := by
  induction cs generalizing acc with
  | nil => rfl
  | cons c rest ih =>
    rw [List.foldl_cons, ih (indexStep acc c)]
    have hcons : lastMatch "simpleType" nm (c :: rest) =
        (match lastMatch "simpleType" nm rest with
         | some r => some r
         | none => if matchDecl "simpleType" nm c then some c else none) := rfl
    rw [hcons]
    cases hlm : lastMatch "simpleType" nm rest with
    | some r => rfl
    | none =>
      dsimp only
      rw [dlookup_indexStep_st]
      by_cases hm : matchDecl "simpleType" nm c <;> simp [hm]

/-- Folding the index over a child list makes lookup return the last
matching child, falling back to the accumulator: complex types. -/
theorem dlookup_foldl_ct (cs : List XNode) (acc : SchemaIndex) (nm : String) :
    dlookup (cs.foldl indexStep acc).complex_types nm =
      (match lastMatch "complexType" nm cs with
       | some r => some r
       | none => dlookup acc.complex_types nm) := by
  induction cs generalizing acc with
  | nil => rfl
  | cons c rest ih =>
    rw [List.foldl_cons, ih (indexStep acc c)]
    have hcons : lastMatch "complexType" nm (c :: rest) =
        (match lastMatch "complexType" nm rest with
         | some r => some r
         | none => if matchDecl "complexType" nm c then some c else none) := rfl
    rw [hcons]
    cases hlm : lastMatch "complexType" nm rest with
    | some r => rfl
    | none =>
      dsimp only
      rw [dlookup_indexStep_ct]
      by_cases hm : matchDecl "complexType" nm c <;> simp [hm]

/-- Folding the index over a child list makes lookup return the last
matching child, falling back to the accumulator: global elements. -/
theorem dlookup_foldl_ge (cs : List XNode) (acc : SchemaIndex) (nm : String) :
    dlookup (cs.foldl indexStep acc).global_elements nm =
      (match lastMatch "element" nm cs with
       | some r => some r
       | none => dlookup acc.global_elements nm) := by
  induction cs generalizing acc with
  | nil => rfl
  | cons c rest ih =>
    rw [List.foldl_cons, ih (indexStep acc c)]
    have hcons : lastMatch "element" nm (c :: rest) =
        (match lastMatch "element" nm rest with
         | some r => some r
         | none => if matchDecl "element" nm c then some c else none) := rfl
    rw [hcons]
    cases hlm : lastMatch "element" nm rest with
    | some r => rfl
    | none =>
      dsimp only
      rw [dlookup_indexStep_ge]
      by_cases hm : matchDecl "element" nm c <;> simp [hm]

/-- Claim C6 amended: when top-level children redeclare a name, the index
records the last occurrence in document order, overwriting earlier ones,
for all three buckets. -/
theorem C6_last_occurrence_wins (root : XNode) (nm : String) :
    dlookup (_index_schema root).simple_types nm =
      lastMatch "simpleType" nm root.children ∧
    dlookup (_index_schema root).complex_types nm =
      lastMatch "complexType" nm root.children ∧
    dlookup (_index_schema root).global_elements nm =
      lastMatch "element" nm root.children := by
  unfold _index_schema
  refine ⟨?_, ?_, ?_⟩
  · rw [dlookup_foldl_st]
    cases lastMatch "simpleType" nm root.children <;> rfl
  · rw [dlookup_foldl_ct]
    cases lastMatch "complexType" nm root.children <;> rfl
  · rw [dlookup_foldl_ge]
    cases lastMatch "element" nm root.children <;> rfl

/-! ## Normalizer idempotence (claim C8) -/

theorem alnum_ne_underscore {c : Char} (h : isAlnumAscii c = true) :
    c ≠ '_' := by
  intro he
  subst he
  exact absurd h (by decide)

theorem lowerDigit_ne_underscore {c : Char} (h : isLowerDigitAscii c = true) :
    c ≠ '_' := by
  intro he
  subst he
  exact absurd h (by decide)

theorem upper_ne_underscore {c : Char} (h : isUpperAscii c = true) :
    c ≠ '_' := by
  intro he
  subst he
  exact absurd h (by decide)

theorem isUpperAscii_iff (c : Char) :
    isUpperAscii c = true ↔ (65 ≤ c.toNat ∧ c.toNat ≤ 90) := by
  simp [isUpperAscii]

theorem isAlnumAscii_iff (c : Char) :
    isAlnumAscii c = true ↔
      ((48 ≤ c.toNat ∧ c.toNat ≤ 57) ∨ (65 ≤ c.toNat ∧ c.toNat ≤ 90) ∨
        (97 ≤ c.toNat ∧ c.toNat ≤ 122)) := by
  simp [isAlnumAscii, or_assoc]

theorem toLower_id_of_not_upper {c : Char} (h : isUpperAscii c = false) :
    toLowerAscii c = c := by
  unfold toLowerAscii
  simp [h]

theorem toLower_not_upper (c : Char) :
    isUpperAscii (toLowerAscii c) = false := by
  have h := toNat_toLowerAscii c
  by_cases hu : isUpperAscii c = true
  · rw [if_pos hu] at h
    have h2 := (isUpperAscii_iff c).mp hu
    cases hq : isUpperAscii (toLowerAscii c)
    · rfl
    · exfalso
      have h3 := (isUpperAscii_iff _).mp hq
      omega
  · have hu' : isUpperAscii c = false := by
      cases hq : isUpperAscii c
      · rfl
      · exact absurd hq hu
    rw [toLower_id_of_not_upper hu']
    exact hu'

theorem toLower_eq_underscore_iff (c : Char) :
    toLowerAscii c = '_' ↔ c = '_' := by
  constructor
  · intro h
    by_cases hu : isUpperAscii c = true
    · exfalso
      have h1 := toNat_toLowerAscii c
      rw [if_pos hu, h] at h1
      have h2 := (isUpperAscii_iff c).mp hu
      have h3 : ('_').toNat = 95 := rfl
      omega
    · have hu' : isUpperAscii c = false := by
        cases hq : isUpperAscii c
        · rfl
        · exact absurd hq hu
      rw [toLower_id_of_not_upper hu'] at h
      exact h
  · intro h
    subst h
    rfl

theorem toLower_class {c : Char} (h : isAlnumAscii c = true ∨ c = '_') :
    isAlnumAscii (toLowerAscii c) = true ∨ toLowerAscii c = '_' := by
  cases h with
  | inr h => right; rw [h]; rfl
  | inl h =>
    left
    have hn := toNat_toLowerAscii c
    by_cases hu : isUpperAscii c = true
    · rw [if_pos hu] at hn
      have h2 := (isUpperAscii_iff c).mp hu
      rw [isAlnumAscii_iff]
      omega
    · have hu' : isUpperAscii c = false := by
        cases hq : isUpperAscii c
        · rfl
        · exact absurd hq hu
      rw [toLower_id_of_not_upper hu']
      exact h

theorem collapse_head_alnum :
    ∀ (cs : List Char) (c : Char),
      (collapseNonAlnum true cs).head? = some c → isAlnumAscii c = true
  | [], c, h => by cases h
  | a :: rest, c, h => by
    unfold collapseNonAlnum at h
    by_cases ha : isAlnumAscii a = true
    · rw [if_pos ha] at h
      cases h
      exact ha
    · rw [if_neg ha, if_pos rfl] at h
      exact collapse_head_alnum rest c h

theorem collapse_noDU : ∀ (b : Bool) (cs : List Char),
    NoDU (collapseNonAlnum b cs)
  | _, [] => List.chain'_nil
  | b, a :: rest => by
    unfold collapseNonAlnum
    by_cases ha : isAlnumAscii a = true
    · rw [if_pos ha]
      refine List.chain'_cons'.mpr ⟨?_, collapse_noDU false rest⟩
      intro y _
      exact fun hb => (alnum_ne_underscore ha) hb.1
    · rw [if_neg ha]
      cases b with
      | true => rw [if_pos rfl]; exact collapse_noDU true rest
      | false =>
        rw [if_neg (by simp)]
        refine List.chain'_cons'.mpr ⟨?_, collapse_noDU true rest⟩
        intro y hy
        have := collapse_head_alnum rest y hy
        exact fun hb => (alnum_ne_underscore this) hb.2

theorem collapse_mem : ∀ (b : Bool) (cs : List Char) (c : Char),
    c ∈ collapseNonAlnum b cs → isAlnumAscii c = true ∨ c = '_'
  | _, [], c, h => by cases h
  | b, a :: rest, c, h => by
    unfold collapseNonAlnum at h
    by_cases ha : isAlnumAscii a = true
    · rw [if_pos ha] at h
      cases h with
      | head => exact Or.inl ha
      | tail _ h => exact collapse_mem false rest c h
    · rw [if_neg ha] at h
      cases b with
      | true => rw [if_pos rfl] at h; exact collapse_mem true rest c h
      | false =>
        rw [if_neg (by simp)] at h
        cases h with
        | head => exact Or.inr rfl
        | tail _ h => exact collapse_mem true rest c h

theorem insertCamel_head (a : Char) (l : List Char) :
    (insertCamel (a :: l)).head? = some a := by
  cases l with
  | nil => rfl
  | cons b r =>
    unfold insertCamel
    by_cases h : (isLowerDigitAscii a && isUpperAscii b) = true
    · rw [if_pos h]
      rfl
    · rw [if_neg h]
      rfl

theorem insertCamel_noDU : ∀ (cs : List Char), NoDU cs → NoDU (insertCamel cs)
  | [], _ => List.chain'_nil
  | [c], _ => List.chain'_singleton c
  | c1 :: c2 :: rest, h => by
    have hR : RnoU c1 c2 := (List.chain'_cons.mp h).1
    have htail : NoDU (c2 :: rest) := (List.chain'_cons.mp h).2
    have ih := insertCamel_noDU (c2 :: rest) htail
    unfold insertCamel
    by_cases hb : (isLowerDigitAscii c1 && isUpperAscii c2) = true
    · rw [if_pos hb]
      have hb2 : isLowerDigitAscii c1 = true ∧ isUpperAscii c2 = true := by
        simpa using hb
      have hld := hb2.1
      have hup := hb2.2
      refine List.chain'_cons'.mpr ⟨?_, List.chain'_cons'.mpr ⟨?_, ih⟩⟩
      · intro y _
        exact fun hc => (lowerDigit_ne_underscore hld) hc.1
      · intro y hy
        rw [insertCamel_head c2 rest] at hy
        cases hy
        exact fun hc => (upper_ne_underscore hup) hc.2
    · rw [if_neg hb]
      refine List.chain'_cons'.mpr ⟨?_, ih⟩
      intro y hy
      rw [insertCamel_head c2 rest] at hy
      cases hy
      exact hR

theorem insertCamel_mem : ∀ (cs : List Char) (c : Char),
    c ∈ insertCamel cs → c ∈ cs ∨ c = '_'
  | [], c, h => by cases h
  | [a], c, h => by
    unfold insertCamel at h
    exact Or.inl h
  | c1 :: c2 :: rest, c, h => by
    unfold insertCamel at h
    by_cases hb : (isLowerDigitAscii c1 && isUpperAscii c2) = true
    · rw [if_pos hb] at h
      cases h with
      | head => exact Or.inl (List.mem_cons_self _ _)
      | tail _ h2 =>
        cases h2 with
        | head => exact Or.inr rfl
        | tail _ h3 =>
          cases insertCamel_mem (c2 :: rest) c h3 with
          | inl hm => exact Or.inl (List.mem_cons_of_mem _ hm)
          | inr hm => exact Or.inr hm
    · rw [if_neg hb] at h
      cases h with
      | head => exact Or.inl (List.mem_cons_self _ _)
      | tail _ h2 =>
        cases insertCamel_mem (c2 :: rest) c h2 with
        | inl hm => exact Or.inl (List.mem_cons_of_mem _ hm)
        | inr hm => exact Or.inr hm

theorem dropTrail_decomp : ∀ (l : List Char), ∃ t, l = dropTrailU l ++ t
  | [] => ⟨[], rfl⟩
  | c :: rest => by
    obtain ⟨t, ht⟩ := dropTrail_decomp rest
    unfold dropTrailU
    cases hd : dropTrailU rest with
    | nil =>
      by_cases hc : c = '_'
      · rw [if_pos hc]
        refine ⟨c :: rest, ?_⟩
        simp
      · rw [if_neg hc]
        refine ⟨rest, ?_⟩
        simp
    | cons d r =>
      refine ⟨t, ?_⟩
      rw [hd] at ht
      simpa using ht

theorem dropTrail_last : ∀ (l : List Char) (x : Char),
    (dropTrailU l).getLast? = some x → x ≠ '_'
  | [], x, h => by cases h
  | c :: rest, x, h => by
    unfold dropTrailU at h
    cases hd : dropTrailU rest with
    | nil =>
      rw [hd] at h
      by_cases hc : c = '_'
      · rw [if_pos hc] at h
        cases h
      · rw [if_neg hc] at h
        cases h
        exact hc
    | cons d r =>
      rw [hd] at h
      rw [List.getLast?_cons_cons] at h
      rw [← hd] at h
      exact dropTrail_last rest x (by rw [hd]; rw [hd] at h; exact h)

theorem dropTrail_head : ∀ (l : List Char) (x : Char),
    (dropTrailU l).head? = some x → l.head? = some x
  | [], x, h => by cases h
  | c :: rest, x, h => by
    unfold dropTrailU at h
    cases hd : dropTrailU rest with
    | nil =>
      rw [hd] at h
      by_cases hc : c = '_'
      · rw [if_pos hc] at h
        cases h
      · rw [if_neg hc] at h
        cases h
        rfl
    | cons d r =>
      rw [hd] at h
      cases h
      rfl

theorem dropTrail_id : ∀ (l : List Char),
    (∀ x, l.getLast? = some x → x ≠ '_') → dropTrailU l = l
  | [], _ => rfl
  | c :: rest, h => by
    unfold dropTrailU
    cases hrest : rest with
    | nil =>
      have hc := h c (by rw [hrest]; rfl)
      subst hrest
      simp [dropTrailU, hc]
    | cons d r =>
      have hrec : dropTrailU rest = rest := by
        apply dropTrail_id rest
        intro x hx
        apply h
        rw [hrest]
        rw [List.getLast?_cons_cons]
        rw [← hrest]
        exact hx
      rw [hrest] at hrec
      rw [hrec]

theorem dropWhileU_head : ∀ (l : List Char) (x : Char),
    (l.dropWhile (fun c => c == '_')).head? = some x → x ≠ '_'
  | [], x, h => by cases h
  | a :: rest, x, h => by
    rw [List.dropWhile_cons] at h
    by_cases ha : a = '_'
    · rw [if_pos (by simp [ha])] at h
      exact dropWhileU_head rest x h
    · rw [if_neg (by simp [ha])] at h
      cases h
      exact ha

theorem stripU_head (l : List Char) (x : Char)
    (h : (stripU l).head? = some x) : x ≠ '_' := by
  unfold stripU at h
  exact dropWhileU_head l x (dropTrail_head _ x h)

theorem stripU_last (l : List Char) (x : Char)
    (h : (stripU l).getLast? = some x) : x ≠ '_' := by
  unfold stripU at h
  exact dropTrail_last _ x h

theorem noDU_append_left {l1 l2 : List Char} (h : NoDU (l1 ++ l2)) :
    NoDU l1 :=
  (List.chain'_append.mp h).1

theorem noDU_append_right {l1 l2 : List Char} (h : NoDU (l1 ++ l2)) :
    NoDU l2 :=
  (List.chain'_append.mp h).2.1

theorem stripU_noDU (l : List Char) (h : NoDU l) : NoDU (stripU l) := by
  have hdw : NoDU (l.dropWhile (fun c => c == '_')) := by
    have hsplit := List.takeWhile_append_dropWhile (l := l)
      (p := fun c => c == '_')
    rw [← hsplit] at h
    exact noDU_append_right h
  obtain ⟨t, ht⟩ := dropTrail_decomp (l.dropWhile (fun c => c == '_'))
  rw [ht] at hdw
  exact noDU_append_left hdw

theorem stripU_mem (l : List Char) (c : Char) (h : c ∈ stripU l) : c ∈ l := by
  unfold stripU at h
  obtain ⟨t, ht⟩ := dropTrail_decomp (l.dropWhile (fun c => c == '_'))
  have h2 : c ∈ l.dropWhile (fun c => c == '_') := by
    rw [ht]
    exact List.mem_append.mpr (Or.inl h)
  exact (List.dropWhile_sublist _).mem h2

theorem stripU_id (l : List Char)
    (hh : ∀ x, l.head? = some x → x ≠ '_')
    (hl : ∀ x, l.getLast? = some x → x ≠ '_') : stripU l = l := by
  unfold stripU
  have hdw : l.dropWhile (fun c => c == '_') = l := by
    cases l with
    | nil => rfl
    | cons a rest =>
      rw [List.dropWhile_cons, if_neg]
      simp
      exact hh a rfl
  rw [hdw]
  exact dropTrail_id l hl

theorem map_noDU (l : List Char) (h : NoDU l) :
    NoDU (l.map toLowerAscii) := by
  rw [NoDU, List.chain'_map]
  refine h.imp ?_
  intro a b hab hc
  exact hab ⟨(toLower_eq_underscore_iff a).mp hc.1,
    (toLower_eq_underscore_iff b).mp hc.2⟩

theorem map_toLower_id (l : List Char)
    (h : ∀ c ∈ l, isUpperAscii c = false) : l.map toLowerAscii = l := by
  induction l with
  | nil => rfl
  | cons a rest ih =>
    rw [List.map_cons, toLower_id_of_not_upper (h a (List.mem_cons_self _ _)),
      ih (fun c hc => h c (List.mem_cons_of_mem _ hc))]

theorem collapse_id : ∀ (cs : List Char) (b : Bool),
    (∀ c ∈ cs, isAlnumAscii c = true ∨ c = '_') → NoDU cs →
    (b = true → cs.head? ≠ some '_') → collapseNonAlnum b cs = cs
  | [], _, _, _, _ => rfl
  | a :: rest, b, hmem, hnodu, hhead => by
    unfold collapseNonAlnum
    by_cases ha : isAlnumAscii a = true
    · rw [if_pos ha]
      rw [collapse_id rest false
        (fun c hc => hmem c (List.mem_cons_of_mem _ hc))
        hnodu.tail (by intro h; cases h)]
    · rw [if_neg ha]
      have ha2 : a = '_' := by
        cases hmem a (List.mem_cons_self _ _) with
        | inl h => exact absurd h ha
        | inr h => exact h
      cases b with
      | true =>
        exfalso
        apply hhead rfl
        rw [ha2]
        rfl
      | false =>
        rw [if_neg (by simp)]
        have hheadr : (true : Bool) = true → rest.head? ≠ some '_' := by
          intro _ hr
          cases hrestl : rest with
          | nil => rw [hrestl] at hr; cases hr
          | cons d r =>
            rw [hrestl] at hr
            cases hr
            rw [ha2, hrestl] at hnodu
            exact (List.chain'_cons.mp hnodu).1 ⟨rfl, rfl⟩
        have hrest : collapseNonAlnum true rest = rest :=
          collapse_id rest true
            (fun c hc => hmem c (List.mem_cons_of_mem _ hc)) hnodu.tail hheadr
        rw [hrest, ha2]

theorem insertCamel_id : ∀ (cs : List Char),
    (∀ c ∈ cs, isUpperAscii c = false) → insertCamel cs = cs
  | [], _ => rfl
  | [c], _ => rfl
  | c1 :: c2 :: rest, h => by
    unfold insertCamel
    rw [if_neg, insertCamel_id (c2 :: rest)
      (fun c hc => h c (List.mem_cons_of_mem _ hc))]
    rw [h c2 (List.mem_cons_of_mem _ (List.mem_cons_self _ _))]
    simp

theorem normChars_class (cs : List Char) :
    ∀ c ∈ normChars cs, isAlnumAscii c = true ∨ c = '_' := by
  intro c hc
  unfold normChars at hc
  obtain ⟨d, hd, hdc⟩ := List.mem_map.mp hc
  have hd2 := stripU_mem _ d hd
  have hd3 : isAlnumAscii d = true ∨ d = '_' := by
    cases insertCamel_mem _ d hd2 with
    | inl h => exact collapse_mem false cs d h
    | inr h => exact Or.inr h
  rw [← hdc]
  exact toLower_class hd3

theorem normChars_not_upper (cs : List Char) :
    ∀ c ∈ normChars cs, isUpperAscii c = false := by
  intro c hc
  unfold normChars at hc
  obtain ⟨d, _, hdc⟩ := List.mem_map.mp hc
  rw [← hdc]
  exact toLower_not_upper d

theorem normChars_noDU (cs : List Char) : NoDU (normChars cs) := by
  unfold normChars
  exact map_noDU _ (stripU_noDU _ (insertCamel_noDU _ (collapse_noDU false cs)))

theorem normChars_head (cs : List Char) :
    ∀ x, (normChars cs).head? = some x → x ≠ '_' := by
  intro x hx
  unfold normChars at hx
  rw [List.head?_map] at hx
  cases hs : (stripU (insertCamel (collapseNonAlnum false cs))).head? with
  | none => rw [hs] at hx; cases hx
  | some d =>
    rw [hs] at hx
    cases hx
    have hd := stripU_head _ d hs
    intro he
    exact hd ((toLower_eq_underscore_iff d).mp he)

theorem normChars_last (cs : List Char) :
    ∀ x, (normChars cs).getLast? = some x → x ≠ '_' := by
  intro x hx
  unfold normChars at hx
  rw [List.getLast?_map] at hx
  cases hs : (stripU (insertCamel (collapseNonAlnum false cs))).getLast? with
  | none => rw [hs] at hx; cases hx
  | some d =>
    rw [hs] at hx
    cases hx
    have hd := stripU_last _ d hs
    intro he
    exact hd ((toLower_eq_underscore_iff d).mp he)

theorem normChars_idem (cs : List Char) :
    normChars (normChars cs) = normChars cs := by
  have hclass := normChars_class cs
  have hupper := normChars_not_upper cs
  have hnodu := normChars_noDU cs
  have hhead := normChars_head cs
  have hlast := normChars_last cs
  have h1 : collapseNonAlnum false (normChars cs) = normChars cs :=
    collapse_id _ false hclass hnodu (by intro h; cases h)
  have h2 : insertCamel (normChars cs) = normChars cs :=
    insertCamel_id _ hupper
  have h3 : stripU (normChars cs) = normChars cs :=
    stripU_id _ hhead hlast
  have h4 : (normChars cs).map toLowerAscii = normChars cs :=
    map_toLower_id _ hupper
  show (stripU (insertCamel (collapseNonAlnum false (normChars cs)))).map
      toLowerAscii = normChars cs
  rw [h1, h2, h3, h4]

/-- Claim C8: the identifier normalizer is a total pure function, it is
idempotent, and the empty input yields the empty string. -/
theorem C8_normalizer_idempotent :
    (∀ x : String, _snake_case (_snake_case x) = _snake_case x) ∧
    _snake_case "" = "" := by
  constructor
  · intro x
    show String.mk (normChars (String.mk (normChars x.data)).data) =
      String.mk (normChars x.data)
    exact congrArg String.mk (normChars_idem x.data)
  · rfl
